import Mathlib

/-!
Verification development for the FileOps Toolkit pipeline core.

The Python modules under `src/fileops_toolkit/` are shallowly embedded as
Lean functions: pure computations become Lean functions, Python exceptions
become an `Except` result, and the filesystem is an explicit environment
(a record of functions standing for `os.stat`, `open`/`read`, `os.walk`
and the hashlib digests).  Python `int` is modelled by `Int`; the float
modification time is modelled by an integer timestamp, which preserves the
total order the code relies on.
-/

namespace FileOps

/-- Models the Python exception classes the code distinguishes:
`FileNotFoundError` (the only class `verify_file` catches),
`PermissionError` (another `OSError` subclass that `Path.stat`/`open` can
raise and that the code does not catch), `RuntimeError` (raised by
`compute_checksum` when `xxhash` is missing) and `ValueError` (raised on
unknown policy or algorithm names). -/
inductive PyExc where
  | fileNotFound
  | permissionError
  | runtimeError (msg : String)
  | valueError (msg : String)
deriving DecidableEq, Repr

instance {ε α : Type} [DecidableEq ε] [DecidableEq α] :
    DecidableEq (Except ε α) := fun x y =>
  match x, y with
  | Except.ok a, Except.ok b =>
      decidable_of_iff (a = b)
        ⟨fun h => by rw [h], fun h => by injection h⟩
  | Except.error e, Except.error f =>
      decidable_of_iff (e = f)
        ⟨fun h => by rw [h], fun h => by injection h⟩
  | Except.ok _, Except.error _ => isFalse (fun h => Except.noConfusion h)
  | Except.error _, Except.ok _ => isFalse (fun h => Except.noConfusion h)

/-- Embeds `FileMetadata` from `metadata/scanner.py`.  Paths are strings;
`mtime` is an integer timestamp (see module comment). -/
structure FileMetadata where
  path : String
  size_bytes : Int
  mtime : Int
  checksum : Option String := none
deriving DecidableEq, Repr

/-- Python's `str.lower()` (ASCII, which covers every string the code
compares: algorithm names and file extensions), written by structural
recursion over the character list so that concrete instances evaluate. -/
def strLower (s : String) : String :=
  String.mk (s.data.map Char.toLower)

/-- Python's `str.split(sep)` for a single-character separator, by
structural recursion over the character list: `"".split('.') == ['']` and
a separator-free string splits to itself. -/
def splitOnChar (sep : Char) : List Char → List (List Char)
  | [] => [[]]
  | c :: cs =>
      let rest := splitOnChar sep cs
      if c = sep then [] :: rest
      else
        match rest with
        | [] => [[c]]
        | r :: rs => (c :: r) :: rs

/-- Embeds `pathlib.Path.name`: the substring after the last `/`, as used
by `deduplicate` for its grouping key. -/
def pathName (p : String) : String :=
  String.mk ((splitOnChar '/' p.data).getLastD [])

/-- Embeds the `Decision` enum of `deduplication/engine.py`
(members `COPY`, `SKIP`, `REPLACE`, `DUPLICATE`). -/
inductive Decision where
  | COPY
  | SKIP
  | REPLACE
  | DUPLICATE
deriving DecidableEq, Repr

/-- Embeds the `DedupResult` dataclass of `deduplication/engine.py`. -/
structure DedupResult where
  src : FileMetadata
  dst_exists : Bool
  decision : Decision
  reason : String
deriving DecidableEq, Repr

/-- The sort key `lambda m: (m.size_bytes, m.mtime)` used by the
`prefer_newer` policy. -/
def dedupKey (m : FileMetadata) : Int × Int :=
  (m.size_bytes, m.mtime)

/-- Python's lexicographic `<` on a pair of numbers, as used by `max`
with the tuple key. -/
def tupleLt (a b : Int × Int) : Bool :=
  a.1 < b.1 || (a.1 == b.1 && a.2 < b.2)

/-- Helper for `chosenPair`: Python's `max` scans left to right, keeping
the current best `(index, key)` and replacing it only when a strictly
greater key appears, so the earliest maximal element wins.  `i` is the
absolute index of the head of the remaining list. -/
def maxIdxAux (best : Nat × (Int × Int)) (i : Nat) :
    List FileMetadata → Nat × (Int × Int)
  | [] => best
  | x :: xs =>
      maxIdxAux (if tupleLt best.2 (dedupKey x) then (i, dedupKey x) else best)
        (i + 1) xs

/-- Index and key of the element `max(metas, key=lambda m: (m.size_bytes,
m.mtime))` returns (`(0, (0, 0))` on the empty list, which `deduplicate`
never produces as a group). -/
def chosenPair : List FileMetadata → Nat × (Int × Int)
  | [] => (0, (0, 0))
  | x :: xs => maxIdxAux (0, dedupKey x) 1 xs

/-- Position in the group of the record Python's `max` picks. -/
def chosenIdx (metas : List FileMetadata) : Nat :=
  (chosenPair metas).1

/-- Embeds the `for meta in metas` loop of the `prefer_newer` branch.
Python compares `meta is chosen` by object identity; since each group
member is a distinct object appended once by `setdefault`, identity is
modelled by list position: the record at index `c` is the chosen one. -/
def markChosen (c : Nat) (i : Nat) : List FileMetadata → List DedupResult
  | [] => []
  | m :: ms =>
      (if i == c then
        { src := m, dst_exists := false, decision := Decision.COPY,
          reason := "chosen" }
      else
        { src := m, dst_exists := false, decision := Decision.DUPLICATE,
          reason := "duplicate" }) :: markChosen c (i + 1) ms

/-- Embeds the body of `deduplicate`'s per-group loop: the `len(metas) ==
1` early case, then the policy dispatch (`prefer_newer`,
`keep_both_with_suffix`, otherwise `raise ValueError`). -/
def dedupGroup (metas : List FileMetadata) (policy : String) :
    Except PyExc (List DedupResult) :=
  match metas with
  | [m] =>
      Except.ok [{ src := m, dst_exists := false, decision := Decision.COPY,
                   reason := "unique" }]
  | _ =>
      if policy == "prefer_newer" then
        Except.ok (markChosen (chosenIdx metas) 0 metas)
      else if policy == "keep_both_with_suffix" then
        Except.ok (metas.map fun m =>
          { src := m, dst_exists := false, decision := Decision.COPY,
            reason := "keep_both" })
      else
        Except.error (PyExc.valueError ("Unknown policy " ++ policy))

/-- One step of the grouping loop `grouped.setdefault(meta.path.name,
[]).append(meta)`.  A Python dict is insertion ordered, so it is modelled
as an association list: a new key is appended at the end, an existing
key's list gets the record appended. -/
def addToGroups (acc : List (String × List FileMetadata))
    (meta : FileMetadata) : List (String × List FileMetadata) :=
  let name := pathName meta.path
  if acc.any (fun p => p.1 == name) then
    acc.map (fun p => if p.1 == name then (p.1, p.2 ++ [meta]) else p)
  else
    acc ++ [(name, [meta])]

/-- The grouping phase of `deduplicate`: iterate over the input files and
build the insertion-ordered basename groups. -/
def groupByName (files : List FileMetadata) :
    List (String × List FileMetadata) :=
  files.foldl addToGroups []

/-- The decision phase of `deduplicate`: process the groups in dict order,
concatenating each group's results; a raised exception aborts the whole
call, discarding results built so far. -/
def dedupGroups (groups : List (String × List FileMetadata))
    (policy : String) : Except PyExc (List DedupResult) :=
  match groups with
  | [] => Except.ok []
  | g :: rest =>
      match dedupGroup g.2 policy with
      | Except.error e => Except.error e
      | Except.ok r =>
          match dedupGroups rest policy with
          | Except.error e => Except.error e
          | Except.ok rs => Except.ok (r ++ rs)

/-- Embeds `deduplicate(files, policy='prefer_newer')` from
`deduplication/engine.py`. -/
def deduplicate (files : List FileMetadata)
    (policy : String := "prefer_newer") : Except PyExc (List DedupResult) :=
  dedupGroups (groupByName files) policy

/-- The filesystem and hashing environment that `verification/engine.py`
and `metadata/scanner.py` interact with: `stat` returns the `st_size` of a
path or raises, `read` returns a file's bytes or raises (modeling
`path.open('rb')` plus the chunked reads), `digest` stands for the
hashlib/xxhash hexdigest of a byte sequence under a named algorithm, and
`xxhashAvailable` records whether the optional `xxhash` import
succeeded. -/
structure FsEnv where
  stat : String → Except PyExc Int
  read : String → Except PyExc (List Nat)
  digest : String → List Nat → String
  xxhashAvailable : Bool

/-- Embeds `compute_checksum(path, algo)` from `metadata/scanner.py`:
select the hash object by algorithm name (raising `ValueError` on an
unsupported name, `RuntimeError` when `xxh128` is requested without the
`xxhash` module), then stream the file's bytes through it and return the
hex digest.  Hashing the whole byte list equals hashing it in 8192-byte
chunks, so the streaming loop is modelled by one `digest` application. -/
def compute_checksum (env : FsEnv) (path : String) (algo : String) :
    Except PyExc String :=
  if strLower algo == "md5" then
    match env.read path with
    | Except.error e => Except.error e
    | Except.ok bs => Except.ok (env.digest "md5" bs)
  else if strLower algo == "sha1" then
    match env.read path with
    | Except.error e => Except.error e
    | Except.ok bs => Except.ok (env.digest "sha1" bs)
  else if strLower algo == "xxh128" then
    if env.xxhashAvailable then
      match env.read path with
      | Except.error e => Except.error e
      | Except.ok bs => Except.ok (env.digest "xxh128" bs)
    else
      Except.error (PyExc.runtimeError "xxhash module not installed")
  else
    Except.error (PyExc.valueError ("Unsupported checksum algorithm: " ++ algo))

/-- The body of `verify_file` (the code inside its `try`), instrumented:
the second component counts how many `compute_checksum` calls the run
performs, so "without computing any checksum" is a provable statement.
Mirrors the source order: `src.stat()`, then `dst.stat()`, the size
comparison, then — only under Python's truthiness test `if checksum_algo:`
(which rejects both `None` and the empty string) — the two checksum
computations and their comparison. -/
def verify_fileT (env : FsEnv) (src dst : String) (algo : Option String) :
    Except PyExc (Bool × Nat) :=
  match env.stat src with
  | Except.error e => Except.error e
  | Except.ok s =>
      match env.stat dst with
      | Except.error e => Except.error e
      | Except.ok d =>
          if s != d then
            Except.ok (false, 0)
          else
            match algo with
            | some a =>
                if a == "" then
                  Except.ok (true, 0)
                else
                  match compute_checksum env src a with
                  | Except.error e => Except.error e
                  | Except.ok c1 =>
                      match compute_checksum env dst a with
                      | Except.error e => Except.error e
                      | Except.ok c2 => Except.ok (c1 == c2, 2)
            | none => Except.ok (true, 0)

/-- Embeds `verify_file(src, dst, checksum_algo)` from
`verification/engine.py`: the `try` body (`verify_fileT`, dropping the
instrumentation count), with `except FileNotFoundError: return False` —
and only that exception class — caught. -/
def verify_file (env : FsEnv) (src dst : String) (algo : Option String) :
    Except PyExc Bool :=
  match verify_fileT env src dst algo with
  | Except.ok r => Except.ok r.1
  | Except.error PyExc.fileNotFound => Except.ok false
  | Except.error e => Except.error e

/-- The traversal environment of `discovery/engine.py`: `walk src`
models `os.walk(src)` as the list of `(root, files)` pairs the walk
yields (the unused `dirnames` component is omitted). -/
structure WalkEnv where
  walk : String → List (String × List String)

/-- Embeds `discover_files(sources, extensions)` from
`discovery/engine.py`: normalize the extensions by lower-casing and
stripping leading dots, then walk every source root and keep the files
whose lower-cased substring after the last `.` is a member of the
normalized set, joining `Path(root) / name`. -/
def discover_files (env : WalkEnv) (sources : List String)
    (extensions : List String) : List String :=
  let normalized_exts :=
    extensions.map (fun ext =>
      String.mk (((strLower ext).data).dropWhile (fun c => c = '.')))
  sources.flatMap (fun src =>
    (env.walk src).flatMap (fun entry =>
      entry.2.filterMap (fun nm =>
        if normalized_exts.contains
            (String.mk ((splitOnChar '.' ((strLower nm).data)).getLastD []))
        then some (entry.1 ++ "/" ++ nm)
        else none)))

/-- A Python value placed in the CSV record: the record of
`CSVLogger.log_result` mixes strings and numbers. -/
inductive PyVal where
  | str (v : String)
  | int (v : Int)
deriving DecidableEq, Repr

/-- `result.decision.name.lower()` for the embedded `Decision` enum. -/
def decisionNameLower : Decision → String
  | Decision.COPY => "copy"
  | Decision.SKIP => "skip"
  | Decision.REPLACE => "replace"
  | Decision.DUPLICATE => "duplicate"

/-- Embeds the record built by `CSVLogger.log_result(result, run_id,
worker)` in `logging/logger.py`: the single row (an insertion-ordered
dict, modelled as an association list) that one call passes to
`writer.writerow` — one row per outcome. -/
def log_result (result : DedupResult) (run_id : String) (worker : String) :
    List (String × PyVal) :=
  [("run_id", PyVal.str run_id),
   ("timestamp", PyVal.int result.src.mtime),
   ("worker", PyVal.str worker),
   ("src_path", PyVal.str result.src.path),
   ("dst_path", PyVal.str ""),
   ("size_bytes", PyVal.int result.src.size_bytes),
   ("mtime_unix", PyVal.int result.src.mtime),
   ("hash", PyVal.str (result.src.checksum.getD "")),
   ("decision", PyVal.str (decisionNameLower result.decision)),
   ("reason", PyVal.str result.reason),
   ("duration_ms", PyVal.str ""),
   ("rsync_exit", PyVal.str ""),
   ("error_msg", PyVal.str "")]

/-- Concrete record: `src1/report.txt`, 10 bytes, mtime 5 (the spec's
`(size=10, mtime=5)` example). -/
def exm10 : FileMetadata :=
  { path := "src1/report.txt", size_bytes := 10, mtime := 5 }

/-- Concrete record with the same base name: `src2/report.txt`, 20 bytes,
mtime 1 (the spec's `(size=20, mtime=1)` example). -/
def exm20 : FileMetadata :=
  { path := "src2/report.txt", size_bytes := 20, mtime := 1 }

/-- Concrete record whose base name no other example shares. -/
def exSolo : FileMetadata :=
  { path := "src1/solo.txt", size_bytes := 3, mtime := 7 }

/-- Concrete dedup result used to exercise the CSV row builder. -/
def exResult : DedupResult :=
  { src := exm10, dst_exists := false, decision := Decision.COPY,
    reason := "unique" }

/-- Environment where `src` is 100 bytes and `dst` is 99 bytes, with a
working reader and digest. -/
def envSz : FsEnv :=
  { stat := fun p => if p == "src" then Except.ok 100 else Except.ok 99,
    read := fun _ => Except.ok [1, 2, 3],
    digest := fun a _ => a,
    xxhashAvailable := false }

/-- Environment where both paths are 100 bytes with identical content. -/
def envEq : FsEnv :=
  { stat := fun _ => Except.ok 100,
    read := fun _ => Except.ok [1, 2, 3],
    digest := fun a _ => a,
    xxhashAvailable := false }

/-- Environment where `stat("src")` raises `FileNotFoundError`. -/
def envMissing : FsEnv :=
  { stat := fun p =>
      if p == "src" then Except.error PyExc.fileNotFound else Except.ok 100,
    read := fun _ => Except.ok [1, 2, 3],
    digest := fun a _ => a,
    xxhashAvailable := false }

/-- Environment where `stat("src")` raises `PermissionError` (an `OSError`
that is a filesystem fault but not a `FileNotFoundError`). -/
def envPerm : FsEnv :=
  { stat := fun p =>
      if p == "src" then Except.error PyExc.permissionError else Except.ok 100,
    read := fun _ => Except.ok [1, 2, 3],
    digest := fun a _ => a,
    xxhashAvailable := false }

/-- Walk environment with a single root `root` containing one file
`a.txt`. -/
def walkEnv1 : WalkEnv :=
  ⟨fun s => if s == "root" then [("root", ["a.txt"])] else []⟩

/-- Claim C4: deduplication is deterministic — equal inputs through equal
policies produce identical decision lists (same decisions, reasons and
order).  The embedding is a pure function over insertion-ordered groups,
which is exactly the Python determinism guarantee (dicts iterate in
insertion order). -/
theorem deduplicate_deterministic (files1 files2 : List FileMetadata)
    (p1 p2 : String) (hf : files1 = files2) (hp : p1 = p2) :
    deduplicate files1 p1 = deduplicate files2 p2 := by
  subst hf
  subst hp
  rfl

theorem deduplicate_deterministic_witness :
    (([exm10, exm20] : List FileMetadata) = [exm10, exm20] ∧
      ("prefer_newer" : String) = "prefer_newer") ∧
    deduplicate [exm10, exm20] "prefer_newer" =
      deduplicate [exm10, exm20] "prefer_newer" :=
  ⟨⟨rfl, rfl⟩,
   deduplicate_deterministic [exm10, exm20] [exm10, exm20]
     "prefer_newer" "prefer_newer" rfl rfl⟩

/-- Claim C2 (evaluation at the failing input): under the
`keep_both_with_suffix` policy, a two-member group of records sharing the
base name `report.txt` yields `Decision.COPY` with reason `"keep_both"`
for both records — the `Decision` enum of the code has no
`COPY_WITH_SUFFIX` member, and no suffix is computed, contradicting the
specified `CopyWithSuffix` behaviour assumed by the repository's own
console layer. -/
theorem keep_both_yields_copy_keep_both :
    deduplicate [exm10, exm20] "keep_both_with_suffix" =
      Except.ok
        [{ src := exm10, dst_exists := false, decision := Decision.COPY,
           reason := "keep_both" },
         { src := exm20, dst_exists := false, decision := Decision.COPY,
           reason := "keep_both" }] := by
  decide

/-- Claim C8 counterexample: a root holding the single file `a.txt` with
an empty extension set — `discover_files` yields nothing at all, not
every file, because membership in the empty normalized-extension set
never holds. -/
theorem discover_empty_extensions_cex :
    walkEnv1.walk "root" = [("root", ["a.txt"])] ∧
    discover_files walkEnv1 ["root"] [] = [] := by
  exact ⟨rfl, rfl⟩

/-- Claim C8 as amended: with an empty allowed-extension set, discovery
yields no files whatsoever, for every walk environment and every list of
source roots. -/
theorem discover_empty_extensions_yields_nothing
    (env : WalkEnv) (sources : List String) :
    discover_files env sources [] = [] := by
  simp only [discover_files, List.map_nil]
  induction sources with
  | nil => rfl
  | cons s ss ihs =>
      simp only [List.flatMap_cons, ihs, List.append_nil]
      induction env.walk s with
      | nil => rfl
      | cons e es ihe =>
          simp only [List.flatMap_cons, ihe, List.append_nil]
          induction e.2 with
          | nil => rfl
          | cons nm nms ihn => exact ihn

/-- Claim C9 counterexample: the CSV row built by `log_result` does not
carry a `transfer_exit` field — the twelfth column is named
`rsync_exit`. -/
theorem log_row_fields_cex :
    (log_result exResult "run1" "w1").map Prod.fst ≠
      ["run_id", "timestamp", "worker", "src_path", "dst_path",
       "size_bytes", "mtime_unix", "hash", "decision", "reason",
       "duration_ms", "transfer_exit", "error_msg"] ∧
    "transfer_exit" ∉ (log_result exResult "run1" "w1").map Prod.fst := by
  decide

/-- Claim C9 as amended: every row written by `log_result` carries exactly
the fields `run_id, timestamp, worker, src_path, dst_path, size_bytes,
mtime_unix, hash, decision, reason, duration_ms, rsync_exit, error_msg`
(in that order), one row per outcome. -/
theorem log_row_fields (result : DedupResult) (run_id worker : String) :
    (log_result result run_id worker).map Prod.fst =
      ["run_id", "timestamp", "worker", "src_path", "dst_path",
       "size_bytes", "mtime_unix", "hash", "decision", "reason",
       "duration_ms", "rsync_exit", "error_msg"] := by
  rfl

/-- Claim C6: when the two `stat` sizes differ, verification returns
`false` having performed zero `compute_checksum` calls, whatever algorithm
is configured; and conversely a run that performed any checksum
computation had equal sizes and a configured (truthy) algorithm. -/
theorem verify_size_mismatch_no_checksum :
    (∀ (env : FsEnv) (src dst : String) (algo : Option String) (s d : Int),
      env.stat src = Except.ok s → env.stat dst = Except.ok d → s ≠ d →
      verify_fileT env src dst algo = Except.ok (false, 0) ∧
      verify_file env src dst algo = Except.ok false) ∧
    (∀ (env : FsEnv) (src dst : String) (algo : Option String) (b : Bool)
      (n : Nat),
      verify_fileT env src dst algo = Except.ok (b, n) → 0 < n →
      (∃ s : Int, env.stat src = Except.ok s ∧ env.stat dst = Except.ok s) ∧
      ∃ a : String, algo = some a ∧ a ≠ "") := by
  constructor
  · intro env src dst algo s d hs hd hne
    have hb : (s != d) = true := by simpa [bne_iff_ne] using hne
    have h1 : verify_fileT env src dst algo = Except.ok (false, 0) := by
      simp [verify_fileT, hs, hd, hb]
    exact ⟨h1, by simp [verify_file, h1]⟩
  · intro env src dst algo b n hok hn
    simp only [verify_fileT] at hok
    cases hs : env.stat src with
    | error e => simp [hs] at hok
    | ok s =>
        simp only [hs] at hok
        cases hd : env.stat dst with
        | error e => simp [hd] at hok
        | ok d =>
            simp only [hd] at hok
            by_cases hsd : s = d
            · subst hsd
              simp only [bne_self_eq_false, Bool.false_eq_true,
                if_false] at hok
              cases algo with
              | none =>
                  simp only [Except.ok.injEq, Prod.mk.injEq] at hok
                  omega
              | some a =>
                  by_cases ha : a = ""
                  · subst ha
                    simp only [beq_self_eq_true, if_true, Except.ok.injEq,
                      Prod.mk.injEq] at hok
                    omega
                  · exact ⟨⟨s, rfl, rfl⟩, a, rfl, ha⟩
            · have hb : (s != d) = true := by simpa [bne_iff_ne] using hsd
              simp only [hb, if_true, Except.ok.injEq, Prod.mk.injEq] at hok
              omega

theorem verify_size_mismatch_no_checksum_witness :
    ((envSz.stat "src" = Except.ok 100 ∧ envSz.stat "dst" = Except.ok 99 ∧
        (100 : Int) ≠ 99) ∧
      verify_fileT envSz "src" "dst" (some "md5") = Except.ok (false, 0) ∧
      verify_file envSz "src" "dst" (some "md5") = Except.ok false) ∧
    ((verify_fileT envEq "src" "dst" (some "md5") = Except.ok (true, 2) ∧
        0 < 2) ∧
      (∃ s : Int, envEq.stat "src" = Except.ok s ∧
        envEq.stat "dst" = Except.ok s) ∧
      ∃ a : String, (some "md5" : Option String) = some a ∧ a ≠ "") :=
  ⟨⟨⟨by decide, by decide, by decide⟩,
    verify_size_mismatch_no_checksum.1 envSz "src" "dst" (some "md5") 100 99
      (by decide) (by decide) (by decide)⟩,
   ⟨⟨by decide, by decide⟩,
    verify_size_mismatch_no_checksum.2 envEq "src" "dst" (some "md5") true 2
      (by decide) (by decide)⟩⟩

/-- Claim C7 counterexample: a `PermissionError` raised by `stat` — a
filesystem fault that is not a `FileNotFoundError` — propagates out of
`verify_file` instead of yielding `false`: the code catches only
`FileNotFoundError`. -/
theorem verify_permission_error_propagates_cex :
    verify_file envPerm "src" "dst" none = Except.error PyExc.permissionError ∧
    ∀ b : Bool, verify_file envPerm "src" "dst" none ≠ Except.ok b := by
  decide

/-- Claim C7 as amended: a `FileNotFoundError` anywhere in the
verification body makes `verify_file` return `false`; any other exception
propagates unchanged to the caller. -/
theorem verify_fnf_caught_others_propagate (env : FsEnv) (src dst : String)
    (algo : Option String) :
    (verify_fileT env src dst algo = Except.error PyExc.fileNotFound →
      verify_file env src dst algo = Except.ok false) ∧
    (∀ e : PyExc, e ≠ PyExc.fileNotFound →
      verify_fileT env src dst algo = Except.error e →
      verify_file env src dst algo = Except.error e) := by
  constructor
  · intro h
    simp [verify_file, h]
  · intro e he h
    cases e with
    | fileNotFound => exact absurd rfl he
    | permissionError => simp [verify_file, h]
    | runtimeError m => simp [verify_file, h]
    | valueError m => simp [verify_file, h]

theorem verify_fnf_caught_others_propagate_witness :
    verify_file envMissing "src" "dst" none = Except.ok false ∧
    verify_file envPerm "src" "dst" none =
      Except.error PyExc.permissionError :=
  ⟨(verify_fnf_caught_others_propagate envMissing "src" "dst" none).1
      (by decide),
   (verify_fnf_caught_others_propagate envPerm "src" "dst" none).2
      PyExc.permissionError (by decide) (by decide)⟩

theorem dedupGroup_not_single_unknown (metas : List FileMetadata)
    (policy : String) (hp1 : policy ≠ "prefer_newer")
    (hp2 : policy ≠ "keep_both_with_suffix") (hlen : metas.length ≠ 1) :
    dedupGroup metas policy =
      Except.error (PyExc.valueError ("Unknown policy " ++ policy)) := by
  have hb1 : (policy == "prefer_newer") = false :=
    beq_eq_false_iff_ne.mpr hp1
  have hb2 : (policy == "keep_both_with_suffix") = false :=
    beq_eq_false_iff_ne.mpr hp2
  cases metas with
  | nil => simp [dedupGroup, hb1, hb2]
  | cons a t =>
      cases t with
      | nil => simp at hlen
      | cons b u => simp [dedupGroup, hb1, hb2]

theorem dedupGroups_unknown (groups : List (String × List FileMetadata))
    (policy : String) (hp1 : policy ≠ "prefer_newer")
    (hp2 : policy ≠ "keep_both_with_suffix")
    (hmulti : ∃ g ∈ groups, 2 ≤ g.2.length) :
    dedupGroups groups policy =
      Except.error (PyExc.valueError ("Unknown policy " ++ policy)) := by
  induction groups with
  | nil =>
      obtain ⟨g, hg, _⟩ := hmulti
      exact absurd hg (List.not_mem_nil g)
  | cons g rest ih =>
      rcases hg2 : g.2 with _ | ⟨m, _ | ⟨m2, tl⟩⟩
      · have herr := dedupGroup_not_single_unknown g.2 policy hp1 hp2
          (by rw [hg2]; simp)
        simp [dedupGroups, herr]
      · have hone : dedupGroup g.2 policy =
            Except.ok ([{ src := m, dst_exists := false,
                          decision := Decision.COPY,
                          reason := "unique" }] : List DedupResult) := by
          rw [hg2]; rfl
        have hrest : ∃ g' ∈ rest, 2 ≤ g'.2.length := by
          obtain ⟨g', hg', hlen'⟩ := hmulti
          rcases List.mem_cons.mp hg' with h | h
          · subst h; rw [hg2] at hlen'; simp at hlen'
          · exact ⟨g', h, hlen'⟩
        simp [dedupGroups, hone, ih hrest]
      · have herr := dedupGroup_not_single_unknown g.2 policy hp1 hp2
          (by rw [hg2]; simp)
        simp [dedupGroups, herr]

/-- Claim C5: on any input whose grouping contains a multi-member group,
an unknown policy name makes `deduplicate` raise `ValueError("Unknown
policy ...")` — the configuration error of the spec's taxonomy — and no
decision list is returned from that call. -/
theorem unknown_policy_fails (files : List FileMetadata) (policy : String)
    (hp1 : policy ≠ "prefer_newer")
    (hp2 : policy ≠ "keep_both_with_suffix")
    (hmulti : ∃ g ∈ groupByName files, 2 ≤ g.2.length) :
    deduplicate files policy =
      Except.error (PyExc.valueError ("Unknown policy " ++ policy)) :=
  dedupGroups_unknown (groupByName files) policy hp1 hp2 hmulti

theorem unknown_policy_fails_witness :
    (("skip" : String) ≠ "prefer_newer" ∧
      ("skip" : String) ≠ "keep_both_with_suffix" ∧
      ∃ g ∈ groupByName [exm10, exm20], 2 ≤ g.2.length) ∧
    deduplicate [exm10, exm20] "skip" =
      Except.error (PyExc.valueError "Unknown policy skip") :=
  ⟨⟨by decide, by decide, by decide⟩,
   unknown_policy_fails [exm10, exm20] "skip" (by decide) (by decide)
     (by decide)⟩

theorem markChosen_dst_exists (c : Nat) (ms : List FileMetadata) :
    ∀ (i : Nat), ∀ r ∈ markChosen c i ms, r.dst_exists = false := by
  induction ms with
  | nil =>
      intro i r hr
      exact absurd hr (List.not_mem_nil r)
  | cons m t ih =>
      intro i r hr
      simp only [markChosen] at hr
      rcases List.mem_cons.mp hr with h | h
      · cases hic : (i == c) with
        | true => rw [hic] at h; subst h; rfl
        | false => rw [hic] at h; subst h; rfl
      · exact ih (i + 1) r h

theorem dedupGroup_dst_exists (metas : List FileMetadata) (policy : String)
    (rs : List DedupResult) (h : dedupGroup metas policy = Except.ok rs) :
    ∀ r ∈ rs, r.dst_exists = false := by
  intro r hr
  simp only [dedupGroup] at h
  split at h
  · injection h with h'
    subst h'
    rcases List.mem_cons.mp hr with h | h
    · subst h; rfl
    · exact absurd h (List.not_mem_nil r)
  · split at h
    · injection h with h'
      subst h'
      exact markChosen_dst_exists _ _ 0 r hr
    · split at h
      · injection h with h'
        subst h'
        obtain ⟨m, _, hm⟩ := List.mem_map.mp hr
        rw [← hm]
      · exact Except.noConfusion h

theorem dedupGroups_dst_exists (groups : List (String × List FileMetadata))
    (policy : String) (results : List DedupResult)
    (h : dedupGroups groups policy = Except.ok results) :
    ∀ r ∈ results, r.dst_exists = false := by
  induction groups generalizing results with
  | nil =>
      simp only [dedupGroups] at h
      injection h with h'
      subst h'
      intro r hr
      exact absurd hr (List.not_mem_nil r)
  | cons g rest ih =>
      simp only [dedupGroups] at h
      split at h
      · exact Except.noConfusion h
      · split at h
        · exact Except.noConfusion h
        · injection h with h'
          subst h'
          intro r hr
          rcases List.mem_append.mp hr with hmem | hmem
          · exact dedupGroup_dst_exists g.2 policy _ (by assumption) r hmem
          · exact ih _ (by assumption) r hmem

/-- Claim C10: every `DedupResult` a successful `deduplicate` call
returns has `dst_exists = false`, under every policy and input — the
engine never consults destination state. -/
theorem dedup_dst_exists_false (files : List FileMetadata) (policy : String)
    (results : List DedupResult)
    (h : deduplicate files policy = Except.ok results) :
    ∀ r ∈ results, r.dst_exists = false :=
  dedupGroups_dst_exists (groupByName files) policy results h

theorem dedup_dst_exists_false_witness :
    deduplicate [exm10, exm20, exSolo] "prefer_newer" =
      Except.ok
        [{ src := exm10, dst_exists := false,
           decision := Decision.DUPLICATE, reason := "duplicate" },
         { src := exm20, dst_exists := false, decision := Decision.COPY,
           reason := "chosen" },
         { src := exSolo, dst_exists := false, decision := Decision.COPY,
           reason := "unique" }] ∧
    ∀ r ∈ ([{ src := exm10, dst_exists := false,
              decision := Decision.DUPLICATE, reason := "duplicate" },
            { src := exm20, dst_exists := false, decision := Decision.COPY,
              reason := "chosen" },
            { src := exSolo, dst_exists := false, decision := Decision.COPY,
              reason := "unique" }] : List DedupResult),
      r.dst_exists = false :=
  ⟨by decide,
   dedup_dst_exists_false [exm10, exm20, exSolo] "prefer_newer" _
     (by decide)⟩

theorem tupleLt_iff (a b : Int × Int) :
    tupleLt a b = true ↔ a.1 < b.1 ∨ (a.1 = b.1 ∧ a.2 < b.2) := by
  simp [tupleLt, Bool.or_eq_true, Bool.and_eq_true, decide_eq_true_eq,
    beq_iff_eq]

theorem tupleLt_eq_false_iff (a b : Int × Int) :
    tupleLt a b = false ↔ ¬(a.1 < b.1 ∨ (a.1 = b.1 ∧ a.2 < b.2)) := by
  rw [← tupleLt_iff]
  cases h : tupleLt a b <;> simp

theorem tupleLt_irrefl (a : Int × Int) : tupleLt a a = false := by
  rw [tupleLt_eq_false_iff]
  omega

theorem tupleLt_trans (a b c : Int × Int)
    (h1 : tupleLt a b = true) (h2 : tupleLt b c = true) :
    tupleLt a c = true := by
  rw [tupleLt_iff] at h1 h2 ⊢
  set d := a.1
  set e := b.1
  set f := c.1
  set x := a.2
  set y := b.2
  set z := c.2
  omega

theorem tupleLt_of_lt_of_not_lt (a b c : Int × Int)
    (h1 : tupleLt a b = true) (h2 : tupleLt c b = false) :
    tupleLt a c = true := by
  rw [tupleLt_iff] at h1 ⊢
  rw [tupleLt_eq_false_iff] at h2
  set d := a.1
  set e := b.1
  set f := c.1
  set x := a.2
  set y := b.2
  set z := c.2
  omega

theorem maxIdxAux_spec (xs : List FileMetadata) :
    ∀ (best : Nat × (Int × Int)) (i : Nat),
      (maxIdxAux best i xs = best ∨
        ∃ t, ∃ ht : t < xs.length,
          maxIdxAux best i xs = (i + t, dedupKey (xs.get ⟨t, ht⟩))) ∧
      tupleLt (maxIdxAux best i xs).2 best.2 = false ∧
      ∀ t (ht : t < xs.length),
        tupleLt (maxIdxAux best i xs).2 (dedupKey (xs.get ⟨t, ht⟩)) = false := by
  induction xs with
  | nil =>
      intro best i
      refine ⟨Or.inl rfl, tupleLt_irrefl best.2, ?_⟩
      intro t ht
      exact absurd ht (by simp)
  | cons x xs ih =>
      intro best i
      by_cases hrep : tupleLt best.2 (dedupKey x) = true
      · have hstep : maxIdxAux best i (x :: xs) =
            maxIdxAux (i, dedupKey x) (i + 1) xs := by
          show maxIdxAux (if tupleLt best.2 (dedupKey x) then (i, dedupKey x)
            else best) (i + 1) xs = _
          rw [if_pos hrep]
        obtain ⟨hloc, hge, hall⟩ := ih (i, dedupKey x) (i + 1)
        have hge' : tupleLt (maxIdxAux (i, dedupKey x) (i + 1) xs).2
            (dedupKey x) = false := hge
        rw [hstep]
        refine ⟨?_, ?_, ?_⟩
        · rcases hloc with h | ⟨t, ht, h⟩
          · refine Or.inr ⟨0, Nat.succ_pos _, ?_⟩
            rw [h]
            rfl
          · refine Or.inr ⟨t + 1, Nat.succ_lt_succ ht, ?_⟩
            rw [h]
            have harith : i + 1 + t = i + (t + 1) := by omega
            rw [harith]
            rfl
        · by_contra hcon
          rw [Bool.not_eq_false] at hcon
          have htr := tupleLt_trans _ _ _ hcon hrep
          simp [hge'] at htr
        · intro t ht
          cases t with
          | zero => exact hge'
          | succ t' => exact hall t' (Nat.lt_of_succ_lt_succ ht)
      · have hrep' : tupleLt best.2 (dedupKey x) = false := by
          revert hrep
          cases tupleLt best.2 (dedupKey x) <;> simp
        have hstep : maxIdxAux best i (x :: xs) =
            maxIdxAux best (i + 1) xs := by
          show maxIdxAux (if tupleLt best.2 (dedupKey x) then (i, dedupKey x)
            else best) (i + 1) xs = _
          rw [if_neg hrep]
        obtain ⟨hloc, hge, hall⟩ := ih best (i + 1)
        rw [hstep]
        refine ⟨?_, hge, ?_⟩
        · rcases hloc with h | ⟨t, ht, h⟩
          · exact Or.inl h
          · refine Or.inr ⟨t + 1, Nat.succ_lt_succ ht, ?_⟩
            rw [h]
            have harith : i + 1 + t = i + (t + 1) := by omega
            rw [harith]
            rfl
        · intro t ht
          cases t with
          | zero =>
              by_contra hcon
              rw [Bool.not_eq_false] at hcon
              have := tupleLt_of_lt_of_not_lt _ _ _ hcon hrep'
              simp [hge] at this
          | succ t' => exact hall t' (Nat.lt_of_succ_lt_succ ht)

theorem chosen_spec (x : FileMetadata) (xs : List FileMetadata) :
    ∃ hc : chosenIdx (x :: xs) < (x :: xs).length,
      (chosenPair (x :: xs)).2 =
        dedupKey ((x :: xs).get ⟨chosenIdx (x :: xs), hc⟩) ∧
      ∀ i (hi : i < (x :: xs).length),
        tupleLt (chosenPair (x :: xs)).2
          (dedupKey ((x :: xs).get ⟨i, hi⟩)) = false := by
  have hpair : chosenPair (x :: xs) = maxIdxAux (0, dedupKey x) 1 xs := rfl
  obtain ⟨hloc, hge, hall⟩ := maxIdxAux_spec xs (0, dedupKey x) 1
  have hidx : chosenIdx (x :: xs) = (maxIdxAux (0, dedupKey x) 1 xs).1 := by
    rw [chosenIdx, hpair]
  have hforall : ∀ i (hi : i < (x :: xs).length),
      tupleLt (chosenPair (x :: xs)).2
        (dedupKey ((x :: xs).get ⟨i, hi⟩)) = false := by
    intro i hi
    rw [hpair]
    cases i with
    | zero => exact hge
    | succ t => exact hall t (Nat.lt_of_succ_lt_succ hi)
  rcases hloc with h | ⟨t, ht, h⟩
  · have hc : chosenIdx (x :: xs) < (x :: xs).length := by
      rw [hidx, h]
      exact Nat.succ_pos _
    refine ⟨hc, ?_, hforall⟩
    have h0 : chosenIdx (x :: xs) = 0 := by rw [hidx, h]
    rw [hpair, h]
    have : (x :: xs).get ⟨chosenIdx (x :: xs), hc⟩ = x := by
      revert hc
      rw [h0]
      intro hc
      rfl
    rw [this]
  · have hc : chosenIdx (x :: xs) < (x :: xs).length := by
      rw [hidx, h]
      have : 1 + t = t + 1 := by omega
      rw [this]
      exact Nat.succ_lt_succ ht
    refine ⟨hc, ?_, hforall⟩
    have h1 : chosenIdx (x :: xs) = 1 + t := by rw [hidx, h]
    have h1' : chosenIdx (x :: xs) = t + 1 := by omega
    rw [hpair, h]
    have : (x :: xs).get ⟨chosenIdx (x :: xs), hc⟩ = xs.get ⟨t, ht⟩ := by
      revert hc
      rw [h1']
      intro hc
      rfl
    rw [this]

theorem chosenIdx_unique (metas : List FileMetadata) (j : Nat)
    (hj : j < metas.length)
    (hmax : ∀ i (hi : i < metas.length), i ≠ j →
      tupleLt (dedupKey (metas.get ⟨i, hi⟩))
        (dedupKey (metas.get ⟨j, hj⟩)) = true) :
    chosenIdx metas = j := by
  cases metas with
  | nil => exact absurd hj (by simp)
  | cons x xs =>
      obtain ⟨hc, hkey, hall⟩ := chosen_spec x xs
      by_contra hcj
      have hlt := hmax (chosenIdx (x :: xs)) hc hcj
      rw [← hkey] at hlt
      have hfalse := hall j hj
      rw [hlt] at hfalse
      exact Bool.noConfusion hfalse

theorem markChosen_length (c : Nat) (ms : List FileMetadata) :
    ∀ i, (markChosen c i ms).length = ms.length := by
  induction ms with
  | nil => intro i; rfl
  | cons m rest ih =>
      intro i
      show (markChosen c i (m :: rest)).length = rest.length + 1
      rw [markChosen]
      simp only [List.length_cons, ih (i + 1)]

theorem markChosen_get (c : Nat) (ms : List FileMetadata) :
    ∀ (i t : Nat) (ht : t < ms.length)
      (ht' : t < (markChosen c i ms).length),
      (markChosen c i ms).get ⟨t, ht'⟩ =
        if i + t = c then
          { src := ms.get ⟨t, ht⟩, dst_exists := false,
            decision := Decision.COPY, reason := "chosen" }
        else
          { src := ms.get ⟨t, ht⟩, dst_exists := false,
            decision := Decision.DUPLICATE, reason := "duplicate" } := by
  induction ms with
  | nil =>
      intro i t ht _
      exact absurd ht (by simp)
  | cons m rest ih =>
      intro i t ht ht'
      cases t with
      | zero =>
          show (if i == c then
              ({ src := m, dst_exists := false, decision := Decision.COPY,
                 reason := "chosen" } : DedupResult)
            else
              { src := m, dst_exists := false,
                decision := Decision.DUPLICATE, reason := "duplicate" }) = _
          by_cases hic : i = c
          · simp [hic]
          · simp [hic]
      | succ t' =>
          have hrec := ih (i + 1) t' (Nat.lt_of_succ_lt_succ ht)
            (by
              have hl := markChosen_length c rest (i + 1)
              have := Nat.lt_of_succ_lt_succ ht
              omega)
          have harith : i + 1 + t' = i + (t' + 1) := by omega
          rw [harith] at hrec
          exact hrec

/-- Claim C1: under `prefer_newer`, in any group of two or more records,
the record whose `(size_bytes, mtime)` key is strictly greater than every
other member's key is decided `Copy`, and every other member is decided
`Duplicate` with reason `"duplicate"`. -/
theorem prefer_newer_unique_max (metas : List FileMetadata) (j : Nat)
    (hlen : 2 ≤ metas.length) (hj : j < metas.length)
    (hmax : ∀ i (hi : i < metas.length), i ≠ j →
      tupleLt (dedupKey (metas.get ⟨i, hi⟩))
        (dedupKey (metas.get ⟨j, hj⟩)) = true) :
    ∃ results : List DedupResult,
      dedupGroup metas "prefer_newer" = Except.ok results ∧
      results.length = metas.length ∧
      (∀ hjr : j < results.length,
        (results.get ⟨j, hjr⟩).decision = Decision.COPY) ∧
      (∀ i (hi : i < results.length), i ≠ j →
        (results.get ⟨i, hi⟩).decision = Decision.DUPLICATE ∧
        (results.get ⟨i, hi⟩).reason = "duplicate") := by
  cases metas with
  | nil => exact absurd hj (by simp)
  | cons a rest =>
      cases rest with
      | nil => exact absurd hlen (by simp)
      | cons b rest2 =>
          have hcj : chosenIdx (a :: b :: rest2) = j :=
            chosenIdx_unique _ j hj hmax
          have hgroup : dedupGroup (a :: b :: rest2) "prefer_newer" =
              Except.ok (markChosen (chosenIdx (a :: b :: rest2)) 0
                (a :: b :: rest2)) := rfl
          rw [hcj] at hgroup
          refine ⟨markChosen j 0 (a :: b :: rest2), hgroup,
            markChosen_length j _ 0, ?_, ?_⟩
          · intro hjr
            have hg := markChosen_get j (a :: b :: rest2) 0 j hj hjr
            rw [hg, if_pos (show 0 + j = j by omega)]
          · intro i hi hij
            have hi' : i < (a :: b :: rest2).length := by
              have := markChosen_length j (a :: b :: rest2) 0
              omega
            have hg := markChosen_get j (a :: b :: rest2) 0 i hi' hi
            rw [hg, if_neg (show ¬(0 + i = j) by omega)]
            exact ⟨rfl, rfl⟩

theorem prefer_newer_unique_max_witness :
    ((2 ≤ ([exm10, exm20] : List FileMetadata).length) ∧
      (∀ i (hi : i < ([exm10, exm20] : List FileMetadata).length), i ≠ 1 →
        tupleLt (dedupKey (([exm10, exm20] : List FileMetadata).get ⟨i, hi⟩))
          (dedupKey (([exm10, exm20] : List FileMetadata).get
            ⟨1, by decide⟩)) = true)) ∧
    ∃ results : List DedupResult,
      dedupGroup [exm10, exm20] "prefer_newer" = Except.ok results ∧
      results.length = ([exm10, exm20] : List FileMetadata).length ∧
      (∀ hjr : 1 < results.length,
        (results.get ⟨1, hjr⟩).decision = Decision.COPY) ∧
      (∀ i (hi : i < results.length), i ≠ 1 →
        (results.get ⟨i, hi⟩).decision = Decision.DUPLICATE ∧
        (results.get ⟨i, hi⟩).reason = "duplicate") :=
  ⟨⟨by decide, by decide⟩,
   prefer_newer_unique_max [exm10, exm20] 1 (by decide) (by decide)
     (by decide)⟩

theorem any_fst_map_update (acc : List (String × List FileMetadata))
    (nm n : String) (meta : FileMetadata) :
    (acc.map (fun p => if p.1 == nm then (p.1, p.2 ++ [meta]) else p)).any
      (fun p => p.1 == n) = acc.any (fun p => p.1 == n) := by
  induction acc with
  | nil => rfl
  | cons p rest ih =>
      simp only [List.map_cons, List.any_cons, ih]
      by_cases hpn : (p.1 == nm) = true
      · rw [if_pos hpn]
      · rw [if_neg hpn]

theorem addToGroups_inv (pref : List FileMetadata)
    (acc : List (String × List FileMetadata)) (meta : FileMetadata)
    (h1 : ∀ q ∈ acc, q.2 = pref.filter (fun m => pathName m.path == q.1))
    (h2 : ∀ n, acc.any (fun p => p.1 == n) =
      pref.any (fun m => pathName m.path == n)) :
    (∀ q ∈ addToGroups acc meta,
      q.2 = (pref ++ [meta]).filter (fun m => pathName m.path == q.1)) ∧
    (∀ n, (addToGroups acc meta).any (fun p => p.1 == n) =
      (pref ++ [meta]).any (fun m => pathName m.path == n)) := by
  by_cases hmem : acc.any (fun p => p.1 == pathName meta.path) = true
  · have hadd : addToGroups acc meta =
        acc.map (fun p =>
          if p.1 == pathName meta.path then (p.1, p.2 ++ [meta]) else p) := by
      simp only [addToGroups]
      rw [if_pos hmem]
    constructor
    · intro q hq
      rw [hadd] at hq
      obtain ⟨p, hp, hpq⟩ := List.mem_map.mp hq
      by_cases hpn : (p.1 == pathName meta.path) = true
      · rw [if_pos hpn] at hpq
        have hfst : q.1 = p.1 := by rw [← hpq]
        have hsnd : q.2 = p.2 ++ [meta] := by rw [← hpq]
        have hp1 : p.1 = pathName meta.path := beq_iff_eq.mp hpn
        rw [hsnd, hfst, h1 p hp, List.filter_append, hp1]
        simp [List.filter_cons]
      · rw [if_neg hpn] at hpq
        subst hpq
        have hkey : (pathName meta.path == p.1) = false := by
          rcases hb : (pathName meta.path == p.1) with _ | _
          · rfl
          · exact absurd (by simp [(beq_iff_eq.mp hb).symm]) hpn
        rw [List.filter_append]
        simp only [List.filter_cons, List.filter_nil, hkey,
          Bool.false_eq_true, if_false, List.append_nil]
        exact h1 p hp
    · intro n
      rw [hadd, any_fst_map_update, h2 n]
      rcases hb : (pathName meta.path == n) with _ | _
      · simp [hb]
      · have hn : pref.any (fun m => pathName m.path == n) = true := by
          rw [← beq_iff_eq.mp hb, ← h2]
          exact hmem
        simp [hb, hn]
  · have hadd : addToGroups acc meta =
        acc ++ [(pathName meta.path, [meta])] := by
      simp only [addToGroups]
      rw [if_neg hmem]
    have hmem' : acc.any (fun p => p.1 == pathName meta.path) = false := by
      rcases hb : acc.any (fun p => p.1 == pathName meta.path) with _ | _
      · rfl
      · exact absurd hb hmem
    constructor
    · intro q hq
      rw [hadd] at hq
      rcases List.mem_append.mp hq with h | h
      · have hkey : (pathName meta.path == q.1) = false := by
          rcases hb : (pathName meta.path == q.1) with _ | _
          · rfl
          · exfalso
            have hq1 : q.1 = pathName meta.path := (beq_iff_eq.mp hb).symm
            have hc : acc.any (fun p => p.1 == pathName meta.path) = true :=
              List.any_eq_true.mpr ⟨q, h, by simp [hq1]⟩
            rw [hc] at hmem'
            exact Bool.noConfusion hmem'
        rw [List.filter_append]
        simp only [List.filter_cons, List.filter_nil, hkey,
          Bool.false_eq_true, if_false, List.append_nil]
        exact h1 q h
      · have hq' : q = (pathName meta.path, [meta]) := by simpa using h
        subst hq'
        have hnil : pref.filter
            (fun m => pathName m.path == pathName meta.path) = [] := by
          apply List.filter_eq_nil_iff.mpr
          intro a ha
          have hh := h2 (pathName meta.path)
          rw [hmem'] at hh
          exact List.any_eq_false.mp hh.symm a ha
        rw [List.filter_append]
        simp [List.filter_cons, hnil]
    · intro n
      rw [hadd]
      simp only [List.any_append, List.any_cons, List.any_nil, h2 n]

theorem groupFold_inv (files : List FileMetadata) :
    ∀ (pref : List FileMetadata) (acc : List (String × List FileMetadata)),
      (∀ q ∈ acc, q.2 = pref.filter (fun m => pathName m.path == q.1)) →
      (∀ n, acc.any (fun p => p.1 == n) =
        pref.any (fun m => pathName m.path == n)) →
      (∀ q ∈ files.foldl addToGroups acc,
        q.2 = (pref ++ files).filter (fun m => pathName m.path == q.1)) ∧
      (∀ n, (files.foldl addToGroups acc).any (fun p => p.1 == n) =
        (pref ++ files).any (fun m => pathName m.path == n)) := by
  induction files with
  | nil =>
      intro pref acc h1 h2
      rw [List.append_nil]
      exact ⟨h1, h2⟩
  | cons f fs ih =>
      intro pref acc h1 h2
      have hstep := addToGroups_inv pref acc f h1 h2
      have hrec := ih (pref ++ [f]) (addToGroups acc f) hstep.1 hstep.2
      rw [List.append_assoc] at hrec
      exact hrec

theorem groupByName_mem_filter (files : List FileMetadata) :
    ∀ q ∈ groupByName files,
      q.2 = files.filter (fun m => pathName m.path == q.1) := by
  have h := groupFold_inv files [] []
    (by intro q hq; exact absurd hq (List.not_mem_nil q))
    (by intro n; rfl)
  simpa using h.1

theorem groupByName_any (files : List FileMetadata) (n : String) :
    (groupByName files).any (fun p => p.1 == n) =
      files.any (fun m => pathName m.path == n) := by
  have h := groupFold_inv files [] []
    (by intro q hq; exact absurd hq (List.not_mem_nil q))
    (by intro n; rfl)
  simpa using h.2 n

theorem groupByName_singleton (files : List FileMetadata) (m : FileMetadata)
    (hm : m ∈ files)
    (hcount : files.countP
      (fun x => pathName x.path == pathName m.path) = 1) :
    (pathName m.path, [m]) ∈ groupByName files := by
  have hfil : files.filter
      (fun x => pathName x.path == pathName m.path) = [m] := by
    have hlen : (files.filter
        (fun x => pathName x.path == pathName m.path)).length = 1 := by
      rw [← List.countP_eq_length_filter]
      exact hcount
    obtain ⟨a, ha⟩ := List.length_eq_one.mp hlen
    have hmf : m ∈ files.filter
        (fun x => pathName x.path == pathName m.path) :=
      List.mem_filter.mpr ⟨hm, by simp⟩
    rw [ha] at hmf
    have hma : m = a := by simpa using hmf
    rw [ha, hma]
  have hany : (groupByName files).any
      (fun p => p.1 == pathName m.path) = true := by
    rw [groupByName_any]
    exact List.any_eq_true.mpr ⟨m, hm, by simp⟩
  obtain ⟨q, hq, hq1⟩ := List.any_eq_true.mp hany
  have hq1' : q.1 = pathName m.path := by simpa using hq1
  have hq2 := groupByName_mem_filter files q hq
  rw [hq1', hfil] at hq2
  have hqeq : q = (pathName m.path, [m]) := by
    rcases q with ⟨qa, qb⟩
    simp only at hq1' hq2
    rw [hq1', hq2]
  rw [← hqeq]
  exact hq

theorem dedupGroups_mem (groups : List (String × List FileMetadata))
    (policy : String) (results : List DedupResult)
    (hok : dedupGroups groups policy = Except.ok results) :
    ∀ g ∈ groups, ∃ rs, dedupGroup g.2 policy = Except.ok rs ∧
      ∀ r ∈ rs, r ∈ results := by
  induction groups generalizing results with
  | nil =>
      intro g hg
      exact absurd hg (List.not_mem_nil g)
  | cons g0 rest ih =>
      intro g hg
      simp only [dedupGroups] at hok
      cases heqr : dedupGroup g0.2 policy with
      | error e =>
          simp only [heqr] at hok
          exact Except.noConfusion hok
      | ok r =>
          simp only [heqr] at hok
          cases heqrs : dedupGroups rest policy with
          | error e =>
              simp only [heqrs] at hok
              exact Except.noConfusion hok
          | ok rs =>
              simp only [heqrs] at hok
              injection hok with hres
              subst hres
              rcases List.mem_cons.mp hg with h | h
              · subst h
                exact ⟨r, heqr, fun x hx => List.mem_append.mpr (Or.inl hx)⟩
              · obtain ⟨rs', heq', hsub⟩ := ih rs heqrs g h
                exact ⟨rs', heq',
                  fun x hx => List.mem_append.mpr (Or.inr (hsub x hx))⟩

/-- Claim C3: a record whose base file name no other record of the run
shares (its group has size 1) is decided `Copy` with reason `"unique"`,
whatever the policy, whenever `deduplicate` returns a decision list. -/
theorem singleton_group_copy_unique (files : List FileMetadata)
    (policy : String) (results : List DedupResult) (m : FileMetadata)
    (hm : m ∈ files)
    (hcount : files.countP
      (fun x => pathName x.path == pathName m.path) = 1)
    (hok : deduplicate files policy = Except.ok results) :
    ({ src := m, dst_exists := false, decision := Decision.COPY,
       reason := "unique" } : DedupResult) ∈ results := by
  have hgrp := groupByName_singleton files m hm hcount
  obtain ⟨rs, hrs, hsub⟩ :=
    dedupGroups_mem (groupByName files) policy results hok
      (pathName m.path, [m]) hgrp
  have hsingle : dedupGroup
      ((pathName m.path, [m]) : String × List FileMetadata).2 policy =
      Except.ok ([{ src := m, dst_exists := false,
                    decision := Decision.COPY,
                    reason := "unique" }] : List DedupResult) := rfl
  rw [hsingle] at hrs
  injection hrs with hrs'
  subst hrs'
  exact hsub _ (List.mem_cons_self _ _)

theorem singleton_group_copy_unique_witness :
    (exSolo ∈ ([exm10, exm20, exSolo] : List FileMetadata) ∧
      ([exm10, exm20, exSolo] : List FileMetadata).countP
        (fun x => pathName x.path == pathName exSolo.path) = 1 ∧
      deduplicate [exm10, exm20, exSolo] "prefer_newer" =
        Except.ok
          [{ src := exm10, dst_exists := false,
             decision := Decision.DUPLICATE, reason := "duplicate" },
           { src := exm20, dst_exists := false,
             decision := Decision.COPY, reason := "chosen" },
           { src := exSolo, dst_exists := false,
             decision := Decision.COPY, reason := "unique" }]) ∧
    ({ src := exSolo, dst_exists := false, decision := Decision.COPY,
       reason := "unique" } : DedupResult) ∈
      ([{ src := exm10, dst_exists := false,
          decision := Decision.DUPLICATE, reason := "duplicate" },
        { src := exm20, dst_exists := false,
          decision := Decision.COPY, reason := "chosen" },
        { src := exSolo, dst_exists := false,
          decision := Decision.COPY, reason := "unique" }] :
        List DedupResult) :=
  ⟨⟨by decide, by decide, by decide⟩,
   singleton_group_copy_unique [exm10, exm20, exSolo] "prefer_newer" _
     exSolo (by decide) (by decide) (by decide)⟩

end FileOps
